import Mathlib

/-!
Verification of the `openai-dynamodb-server` core (src/openai-dynamodb-server/index.ts)
against its natural-language specification.

The TypeScript program is shallowly embedded: JavaScript runtime values are the
inductive `Val` (numbers are modelled as integers — no claim under scrutiny
depends on fractional or NaN arithmetic; strings containing fractional numerals
simply convert to "not a number" in this model), JavaScript code that can throw
is modelled in `Except String`, and the handler pipeline of the
`CallToolRequestSchema` handler (index.ts lines 249-296) is split into the same
stages as the source: JSON parse step, result check, table lookup, filter,
sort, count/list branch with projection and slice.
-/

namespace MCPDynamo

/-- JavaScript runtime values as they occur in this program (JSON data,
DynamoDB-unmarshalled records, and `undefined`). -/
inductive Val where
  | undefined
  | null
  | bool (b : Bool)
  | num (n : Int)
  | str (s : String)
  | obj (fields : List (String × Val))
  | arr (elems : List Val)
deriving Repr

/-- `typeof` (JavaScript): note `typeof null === "object"` and
`typeof [] === "object"`. -/
def jsTypeof : Val → String
  | .undefined => "undefined"
  | .null => "object"
  | .bool _ => "boolean"
  | .num _ => "number"
  | .str _ => "string"
  | .obj _ => "object"
  | .arr _ => "object"

/-- JavaScript truthiness (`ToBoolean`). -/
def truthy : Val → Bool
  | .undefined => false
  | .null => false
  | .bool b => b
  | .num n => n ≠ 0
  | .str s => s ≠ ""
  | .obj _ => true
  | .arr _ => true

/-- First-match association-list lookup (JavaScript objects have unique keys,
and the builders below preserve that invariant via `setKey`). -/
def lookupF : List (String × Val) → String → Option Val
  | [], _ => none
  | (k, v) :: rest, key => if k = key then some v else lookupF rest key

/-- JavaScript property assignment `o[k] = v` on a plain object: overwrite the
existing key in place, otherwise append the new key at the end. -/
def setKey : List (String × Val) → String → Val → List (String × Val)
  | [], k, v => [(k, v)]
  | (k0, v0) :: rest, k, v =>
      if k0 = k then (k, v) :: rest else (k0, v0) :: setKey rest k v

mutual

/-- JavaScript `ToString` for the values of this program (plain objects
stringify to "[object Object]", arrays join their elements with commas,
`null`/`undefined` elements joining to the empty string). -/
def jsToString : Val → String
  | .undefined => "undefined"
  | .null => "null"
  | .bool b => if b then "true" else "false"
  | .num n => toString n
  | .str s => s
  | .obj _ => "[object Object]"
  | .arr l => String.intercalate "," (jsToStringItems l)

def jsToStringItems : List Val → List String
  | [] => []
  | .undefined :: rest => "" :: jsToStringItems rest
  | .null :: rest => "" :: jsToStringItems rest
  | v :: rest => jsToString v :: jsToStringItems rest

end

/-- Whitespace recognised by JavaScript string trimming and numeric
conversion (the ASCII subset; the exotic Unicode space characters do not
occur in this development). -/
def isWsChar (c : Char) : Bool :=
  c = ' ' ∨ c = '\t' ∨ c = '\n' ∨ c = '\r' ∨ c = '\x0b' ∨ c = '\x0c'

/-- Trim leading and trailing whitespace from a character list. -/
def trimChars (l : List Char) : List Char :=
  ((l.dropWhile isWsChar).reverse.dropWhile isWsChar).reverse

/-- Digits-only check for a character list. -/
def allDigits (l : List Char) : Bool := l.all Char.isDigit

/-- Decimal value of a digit list (most significant first). -/
def digitsToNat (l : List Char) : Nat := l.foldl (fun a c => 10 * a + (c.toNat - 48)) 0

/-- Parse a non-empty all-digit character list as a natural number. -/
def parseNatDigits (l : List Char) : Option Nat :=
  if l.isEmpty then none
  else if allDigits l then some (digitsToNat l) else none

/-- JavaScript property read `v[k]`, with string property keys.  Reading a
property of `null`/`undefined` throws a `TypeError`; arrays expose `length`
and their index properties; every other read of an absent property yields
`undefined`. -/
def propGet : Val → String → Except String Val
  | .undefined, k => .error ("TypeError: Cannot read properties of undefined (reading " ++ k ++ ")")
  | .null, k => .error ("TypeError: Cannot read properties of null (reading " ++ k ++ ")")
  | .obj fs, k => .ok ((lookupF fs k).getD .undefined)
  | .arr l, k =>
      if k = "length" then .ok (.num l.length)
      else .ok (((parseNatDigits k.data).bind fun i =>
        if toString i = k then l.get? i else none).getD .undefined)
  | .str s, k =>
      if k = "length" then .ok (.num s.length)
      else .ok ((((parseNatDigits k.data).bind fun i =>
        if toString i = k then s.data.get? i else none).map
          (fun c => Val.str (String.mk [c]))).getD .undefined)
  | _, _ => .ok .undefined

/-- `ToNumber` on a string: trimmed empty string is `0`; otherwise an optional
sign followed by digits (fractional/exponent/hex numerals are outside the
integer model and convert to "not a number", i.e. `none`). -/
def strToNumber (s : String) : Option Int :=
  match trimChars s.data with
  | [] => some 0
  | '+' :: r => (parseNatDigits r).map Int.ofNat
  | '-' :: r => (parseNatDigits r).map (fun n => -(n : Int))
  | l => (parseNatDigits l).map Int.ofNat

/-- Lexicographic character-list comparison by code point, the string leg of
JavaScript's abstract relational comparison. -/
def lexLtChars : List Char → List Char → Bool
  | [], [] => false
  | [], _ :: _ => true
  | _ :: _, [] => false
  | a :: as, b :: bs =>
      if a.toNat < b.toNat then true
      else if b.toNat < a.toNat then false
      else lexLtChars as bs

/-- String relational comparison (by code points; JavaScript compares UTF-16
code units, which agrees on the characters occurring here). -/
def jsStrLt (x y : String) : Bool := lexLtChars x.data y.data

/-- `ToPrimitive` with default hint for the values of this program: plain
objects and arrays convert via their `toString`. -/
def toPrimV : Val → Val
  | .obj fs => .str (jsToString (.obj fs))
  | .arr l => .str (jsToString (.arr l))
  | v => v

/-- JavaScript `ToNumber`; `none` plays the role of NaN. -/
def toNumber : Val → Option Int
  | .undefined => none
  | .null => some 0
  | .bool b => some (if b then 1 else 0)
  | .num n => some n
  | .str s => strToNumber s
  | .obj fs => strToNumber (jsToString (.obj fs))
  | .arr l => strToNumber (jsToString (.arr l))

/-- The abstract relational comparison `a < b` of JavaScript: convert both
sides to primitives; if both are strings compare lexicographically, otherwise
compare as numbers (any NaN side makes the comparison false). -/
def jsLt (a b : Val) : Bool :=
  match toPrimV a, toPrimV b with
  | .str x, .str y => jsStrLt x y
  | pa, pb =>
    match toNumber pa, toNumber pb with
    | some x, some y => decide (x < y)
    | _, _ => false

/-- JavaScript loose equality `==` restricted to the values of this program.
Two distinct objects/arrays are never loosely equal by reference; in this
program the two sides of every comparison originate from different
allocations (a stored record field vs. a freshly parsed query), so
object-vs-object comparison is modelled as `false`. -/
def looseEq (a b : Val) : Bool :=
  match a, b with
  | .undefined, .undefined => true
  | .undefined, .null => true
  | .null, .undefined => true
  | .null, .null => true
  | .undefined, _ => false
  | .null, _ => false
  | _, .undefined => false
  | _, .null => false
  | .obj _, .obj _ => false
  | .obj _, .arr _ => false
  | .arr _, .obj _ => false
  | .arr _, .arr _ => false
  | a, b =>
    let pa := toPrimV a
    let pb := toPrimV b
    let unbool := fun v => match v with
      | Val.bool bb => Val.num (if bb then 1 else 0)
      | x => x
    match unbool pa, unbool pb with
    | .num x, .num y => decide (x = y)
    | .str x, .str y => decide (x = y)
    | .num x, .str y => decide (strToNumber y = some x)
    | .str x, .num y => decide (strToNumber x = some y)
    | _, _ => false

/-- Strict equality of a value with a string literal, as used by
`structured.result !== 'OK'`, `switch (f.operator)` and
`queryType === 'count'`. -/
def strictEqStr (v : Val) (s : String) : Bool :=
  match v with
  | .str t => t = s
  | _ => false

example : jsTypeof .null = "object" := by decide
example : jsLt (.num 5) (.str "9") = true := by decide
example : looseEq (.str "10") (.num 10) = true := by decide
example : jsLt (.str "10") (.str "9") = true := by decide

/-! ## Filtering (`applyFilters`, index.ts lines 162-175) -/

/-- One filter condition applied to one record, following the body of the
`filters.every` callback: read `f.field`, evaluate `item[f.field]`, then
dispatch on `f.operator` with strict string matching (`switch`); an
unrecognized operator falls through to `default: return true`. -/
def evalCond (item f : Val) : Except String Bool := do
  let fieldV ← propGet f "field"
  let val ← propGet item (jsToString fieldV)
  let opV ← propGet f "operator"
  let mV ← propGet f "matchValue"
  pure (if strictEqStr opV "equals" then looseEq val mV
    else if strictEqStr opV "notEquals" then !(looseEq val mV)
    else if strictEqStr opV "greaterThan" then jsLt mV val
    else if strictEqStr opV "lessThan" then jsLt val mV
    else true)

/-- `filters.every(f => ...)` for one record: left-to-right conjunction with
short-circuiting, propagating a thrown `TypeError`. -/
def condsHold (item : Val) : List Val → Except String Bool
  | [] => .ok true
  | f :: rest => do
      let b ← evalCond item f
      if b then condsHold item rest else .ok false

/-- `applyFilters`: `data.filter(item => filters.every(...))`. -/
def applyFiltersE (data filters : List Val) : Except String (List Val) :=
  match data with
  | [] => .ok []
  | x :: xs => do
      let b ← condsHold x filters
      let rest ← applyFiltersE xs filters
      .ok (if b then x :: rest else rest)

/-! ## Sorting (index.ts lines 276-284) -/

/-- The sort comparator body: walk `sortList` in order, compare `a[key]` and
`b[key]` with the relational operators, return on the first strict
inequality, `0` if every key ties. -/
def sortCmp (keys : List Val) (a b : Val) : Except String Int :=
  match keys with
  | [] => .ok 0
  | k :: ks => do
      let ak ← propGet a (jsToString k)
      let bk ← propGet b (jsToString k)
      if jsLt ak bk then .ok (-1)
      else if jsLt bk ak then .ok 1
      else sortCmp ks a b

/-- Insert into a sorted list using a comparator that may throw.  A stable
comparison sort: an element moves past another only on a strictly positive
comparator result. -/
def insertE (cmp : Val → Val → Except String Int) (x : Val) :
    List Val → Except String (List Val)
  | [] => .ok [x]
  | y :: ys => do
      let c ← cmp x y
      if c ≤ 0 then .ok (x :: y :: ys)
      else do
        let r ← insertE cmp x ys
        .ok (y :: r)

/-- Comparison sort with a throwing comparator (`Array.prototype.sort` with
the comparator of index.ts lines 277-283; sorting fewer than two elements
never invokes the comparator, as in the engine). -/
def sortByE (cmp : Val → Val → Except String Int) :
    List Val → Except String (List Val)
  | [] => .ok []
  | x :: xs => do
      let r ← sortByE cmp xs
      insertE cmp x r

/-! ## The executor tail: projection, slice, count/list branch
(index.ts lines 286-295) -/

/-- `for (const x of v)`: arrays iterate their elements, strings their
characters; anything else (in particular `undefined`) throws a `TypeError`. -/
def forOf : Val → Except String (List Val)
  | .arr l => .ok l
  | .str s => .ok (s.data.map (fun c => Val.str (String.mk [c])))
  | v => .error ("TypeError: " ++ jsTypeof v ++ " is not iterable")

/-- `sortList?.length`: optional chaining short-circuits `null`/`undefined`
to `undefined`; arrays and strings expose their length, other primitives
have no such property. -/
def lenProp : Val → Val
  | .undefined => .undefined
  | .null => .undefined
  | .arr l => .num l.length
  | .str s => .num s.length
  | .obj fs => (lookupF fs "length").getD .undefined
  | _ => .undefined

/-- `ToIntegerOrInfinity` as used by `Array.prototype.slice` (NaN becomes 0). -/
def jsToInteger (v : Val) : Int := (toNumber v).getD 0

/-- `l.slice(0, e)`: a non-negative end index truncates to at most `e`
elements, a negative end index counts from the end of the list. -/
def jsSliceZero {α : Type} (l : List α) (e : Int) : List α :=
  if e < 0 then l.take (l.length - min l.length e.natAbs)
  else l.take (min e.toNat l.length)

/-- The projection loop `const out = {}; for (const f of fieldList) out[f] = d[f];`
for a single record (property keys are string-converted, assignment of
`undefined` still creates the key). -/
def projectE (d : Val) (fields : List Val) : Except String (List (String × Val)) :=
  fields.foldlM (fun out f => do
    let v ← propGet d (jsToString f)
    pure (setKey out (jsToString f) v)) []

/-- Result of one `query_table` invocation after the language-model call:
either plain text (error messages, "Table not found", the count message) or
the projected record list that the code serializes with `JSON.stringify`
(the serialization itself is not part of the modelled logic). -/
inductive HOut where
  | text (s : String)
  | jsonList (items : List (List (String × Val)))

/-- The list branch (index.ts lines 289-293):
`data.map(d => {...projection...}).slice(0, limitCount || data.length)`.
The `for (const f of fieldList)` iteration happens inside the `map` callback,
so it runs once per surviving record. -/
def listBranch (data : List Val) (fieldListV limitCountV : Val) :
    Except String (List (List (String × Val))) := do
  let projected ← data.mapM (fun d => do
    let fields ← forOf fieldListV
    projectE d fields)
  let endIdx : Int :=
    if truthy limitCountV then jsToInteger limitCountV else (data.length : Int)
  pure (jsSliceZero projected endIdx)

/-- Filter and (conditionally) sort: lines 275-284.  `filterList || []`
defaults a falsy filter list to the empty array; a truthy non-array reaches
`filters.every` and throws.  The sort runs only when `sortList?.length` is
truthy and operates on the fresh array returned by `filter`. -/
def survivors (tbl : List Val) (filterListV sortListV : Val) :
    Except String (List Val) := do
  let filterArg := if truthy filterListV then filterListV else .arr []
  let filters ← match filterArg with
    | .arr l => Except.ok l
    | v => Except.error ("TypeError: " ++ jsTypeof v ++ ".every is not a function")
  let data ← applyFiltersE tbl filters
  if truthy (lenProp sortListV) then
    sortByE (fun a b => do
      let keys ← forOf sortListV
      sortCmp keys a b) data
  else pure data

/-- The query executor over a table's record list: filter, sort, then the
`queryType === 'count'` / list branch (index.ts lines 275-295). -/
def execQuery (tbl : List Val) (filterListV sortListV fieldListV queryTypeV limitCountV : Val) :
    Except String HOut := do
  let data ← survivors tbl filterListV sortListV
  if strictEqStr queryTypeV "count" then
    pure (.text ("Found " ++ toString data.length ++ " matching records."))
  else do
    let items ← listBranch data fieldListV limitCountV
    pure (.jsonList items)

/-! ## The post-parse handler (index.ts lines 266-295) -/

/-- The in-memory dataset store `records`: table name to loaded record list. -/
def lookupStore : List (String × List Val) → String → Option (List Val)
  | [], _ => none
  | (k, v) :: rest, key => if k = key then some v else lookupStore rest key

/-- The handler body from the `structured.result !== 'OK'` check onward,
parameterized by the executor it would run: check `result`, destructure the
query, look the table up (`!records[tableName]` — a present table is a
truthy array), and only then run the executor. -/
def handleStructuredGen
    (exec : List Val → Val → Val → Val → Val → Val → Except String HOut)
    (store : List (String × List Val)) (structured : Val) : Except String HOut := do
  let resultV ← propGet structured "result"
  if !(strictEqStr resultV "OK") then do
    let em ← propGet structured "errorMessage"
    pure (.text ("AI error: " ++ jsToString em))
  else do
    let tableNameV ← propGet structured "tableName"
    let filterListV ← propGet structured "filterList"
    let sortListV ← propGet structured "sortList"
    let fieldListV ← propGet structured "fieldList"
    let queryTypeV ← propGet structured "queryType"
    let limitCountV ← propGet structured "limitCount"
    match lookupStore store (jsToString tableNameV) with
    | none => pure (.text "Table not found")
    | some tbl => exec tbl filterListV sortListV fieldListV queryTypeV limitCountV

/-- The handler as written, with the real executor. -/
def handleStructured : List (String × List Val) → Val → Except String HOut :=
  handleStructuredGen execQuery

/-! ## `JSON.parse` (the host primitive used at index.ts line 264) -/

/-- JSON insignificant whitespace. -/
def isJsonWs (c : Char) : Bool := c = ' ' ∨ c = '\t' ∨ c = '\n' ∨ c = '\r'

/-- Skip leading JSON whitespace. -/
def skipJsonWs : List Char → List Char
  | c :: rest => if isJsonWs c then skipJsonWs rest else c :: rest
  | [] => []

/-- Value of one hexadecimal digit. -/
def hexDigitVal (c : Char) : Option Nat :=
  if c.isDigit then some (c.toNat - 48)
  else if 97 ≤ c.toNat ∧ c.toNat ≤ 102 then some (c.toNat - 87)
  else if 65 ≤ c.toNat ∧ c.toNat ≤ 70 then some (c.toNat - 55)
  else none

/-- JSON string body after the opening quote: literal characters (no raw
control characters) and the standard escapes. -/
def parseStrChars : List Char → Option (List Char × List Char)
  | [] => none
  | '"' :: rest => some ([], rest)
  | '\\' :: esc =>
    (match esc with
     | '"' :: rest => (parseStrChars rest).map (fun p => ('"' :: p.1, p.2))
     | '\\' :: rest => (parseStrChars rest).map (fun p => ('\\' :: p.1, p.2))
     | '/' :: rest => (parseStrChars rest).map (fun p => ('/' :: p.1, p.2))
     | 'b' :: rest => (parseStrChars rest).map (fun p => ('\x08' :: p.1, p.2))
     | 'f' :: rest => (parseStrChars rest).map (fun p => ('\x0c' :: p.1, p.2))
     | 'n' :: rest => (parseStrChars rest).map (fun p => ('\n' :: p.1, p.2))
     | 'r' :: rest => (parseStrChars rest).map (fun p => ('\r' :: p.1, p.2))
     | 't' :: rest => (parseStrChars rest).map (fun p => ('\t' :: p.1, p.2))
     | 'u' :: c1 :: c2 :: c3 :: c4 :: rest =>
        (match hexDigitVal c1, hexDigitVal c2, hexDigitVal c3, hexDigitVal c4 with
         | some h1, some h2, some h3, some h4 =>
            (parseStrChars rest).map
              (fun p => (Char.ofNat (((h1 * 16 + h2) * 16 + h3) * 16 + h4) :: p.1, p.2))
         | _, _, _, _ => none)
     | _ => none)
  | c :: rest =>
      if c.toNat < 32 then none
      else (parseStrChars rest).map (fun p => (c :: p.1, p.2))

/-- Optional fraction part of a JSON number. -/
def parseFracPart : List Char → Option (List Char × List Char)
  | '.' :: r =>
      let ds := r.takeWhile Char.isDigit
      if ds.isEmpty then none else some (ds, r.dropWhile Char.isDigit)
  | cs => some ([], cs)

/-- Signed exponent digits after `e`/`E`. -/
def parseExpDigits (sign : Int) (r : List Char) : Option (Int × List Char) :=
  let ds := r.takeWhile Char.isDigit
  if ds.isEmpty then none else some (sign * digitsToNat ds, r.dropWhile Char.isDigit)

/-- Optional exponent part of a JSON number. -/
def parseExpPart : List Char → Option (Int × List Char)
  | c :: r =>
      if c = 'e' ∨ c = 'E' then
        match r with
        | '+' :: r2 => parseExpDigits 1 r2
        | '-' :: r2 => parseExpDigits (-1) r2
        | r2 => parseExpDigits 1 r2
      else some (0, c :: r)
  | [] => some (0, [])

/-- JSON number.  The integer grammar is modelled exactly; a numeral with a
fractional part or negative exponent is truncated toward zero, a restriction
of the integer-valued number model (no verified claim involves one). -/
def parseJsonNum (cs : List Char) : Option (Val × List Char) :=
  let (neg, cs1) := match cs with
    | '-' :: r => (true, r)
    | _ => (false, cs)
  let ds := cs1.takeWhile Char.isDigit
  let cs2 := cs1.dropWhile Char.isDigit
  if ds.isEmpty then none
  else if ds.length > 1 ∧ ds.headD '0' = '0' then none
  else do
    let (fds, cs3) ← parseFracPart cs2
    let (ex, cs4) ← parseExpPart cs3
    let mant : Nat := digitsToNat (ds ++ fds)
    let e : Int := ex - fds.length
    let mag : Int :=
      if 0 ≤ e then (mant : Int) * ((10 : Int) ^ e.toNat)
      else (mant : Int) / ((10 : Int) ^ (-e).toNat)
    some (.num (if neg then -mag else mag), cs4)

mutual

/-- JSON value (fueled recursive descent; the fuel strictly exceeds any
possible nesting, see `jsonParse`). -/
def parseJVal : Nat → List Char → Option (Val × List Char)
  | 0, _ => none
  | fuel + 1, cs =>
    match skipJsonWs cs with
    | 'n' :: 'u' :: 'l' :: 'l' :: rest => some (.null, rest)
    | 't' :: 'r' :: 'u' :: 'e' :: rest => some (.bool true, rest)
    | 'f' :: 'a' :: 'l' :: 's' :: 'e' :: rest => some (.bool false, rest)
    | '"' :: rest => (parseStrChars rest).map (fun p => (.str (String.mk p.1), p.2))
    | '[' :: rest =>
        (match skipJsonWs rest with
         | ']' :: r2 => some (.arr [], r2)
         | r2 => (parseJElems fuel r2).map (fun p => (.arr p.1, p.2)))
    | '{' :: rest =>
        (match skipJsonWs rest with
         | '}' :: r2 => some (.obj [], r2)
         | r2 => (parseJMembers fuel r2 []).map (fun p => (.obj p.1, p.2)))
    | c :: rest => if c = '-' ∨ c.isDigit then parseJsonNum (c :: rest) else none
    | [] => none

/-- Comma-separated array elements up to the closing bracket. -/
def parseJElems : Nat → List Char → Option (List Val × List Char)
  | 0, _ => none
  | fuel + 1, cs => do
      let (v, r) ← parseJVal fuel cs
      match skipJsonWs r with
      | ',' :: r2 => (parseJElems fuel r2).map (fun p => (v :: p.1, p.2))
      | ']' :: r2 => some ([v], r2)
      | _ => none

/-- Comma-separated object members up to the closing brace; a duplicated key
overwrites in place, as `JSON.parse` does. -/
def parseJMembers : Nat → List Char → List (String × Val) →
    Option (List (String × Val) × List Char)
  | 0, _, _ => none
  | fuel + 1, cs, acc =>
      match skipJsonWs cs with
      | '"' :: rest => do
          let (kcs, r1) ← parseStrChars rest
          match skipJsonWs r1 with
          | ':' :: r2 => do
              let (v, r3) ← parseJVal fuel r2
              let acc2 := setKey acc (String.mk kcs) v
              (match skipJsonWs r3 with
               | ',' :: r4 => parseJMembers fuel r4 acc2
               | '}' :: r4 => some (acc2, r4)
               | _ => none)
          | _ => none
      | _ => none

end

/-- `JSON.parse`: parse one JSON value, allowing only trailing whitespace;
any failure is a thrown `SyntaxError`. -/
def jsonParse (s : String) : Except String Val :=
  match parseJVal (4 * s.length + 16) s.data with
  | some (v, rest) =>
      if (skipJsonWs rest).isEmpty then .ok v
      else .error "SyntaxError: Unexpected non-whitespace character after JSON data"
  | none => .error "SyntaxError: Unexpected token, the text is not valid JSON"

/-- The parse step of the handler (index.ts line 264):
`JSON.parse(aiResponse.choices[0].message?.content || '{}')` — a missing or
empty (falsy) response text defaults to the literal two-character empty
object text, and `JSON.parse` is not wrapped in any try/catch. -/
def parseStep (content : Option String) : Except String Val :=
  jsonParse (match content with
    | none => "{}"
    | some s => if s = "" then "{}" else s)

/-! ## Schema inference (`inferSchema`, index.ts lines 114-124) -/

/-- Object spread `{...a}` for the values of `typeof` "object" reaching it in
`merge`: `null` spreads to no fields, arrays spread to their index
properties. -/
def spreadFields : Val → List (String × Val)
  | .obj fs => fs
  | .arr l => ((List.range l.length).zip l).map (fun p => (toString p.1, p.2))
  | _ => []

/-- `Object.keys(b)`: throws on `null`/`undefined`, lists own enumerable
keys of objects and arrays, and is empty on other primitives. -/
def objectKeys : Val → Except String (List String)
  | .null => .error "TypeError: Cannot convert undefined or null to object"
  | .undefined => .error "TypeError: Cannot convert undefined or null to object"
  | .obj fs => .ok (fs.map Prod.fst)
  | .arr l => .ok ((List.range l.length).map toString)
  | _ => .ok []

/-- The schema merge of index.ts lines 115-122, with a fuel parameter for the
structural recursion (every use instantiates the fuel beyond the data's
nesting depth).  Faithful to the source: when either side is not of `typeof`
"object", the result is the type tag of `a` — the accumulator side. -/
def merge (fuel : Nat) (a b : Val) : Except String Val :=
  match fuel with
  | 0 => .error "merge recursion fuel exhausted"
  | fuel + 1 =>
    if jsTypeof a ≠ "object" ∨ jsTypeof b ≠ "object" then .ok (.str (jsTypeof a))
    else do
      let keys ← objectKeys b
      let fs ← keys.foldlM (fun res k => do
        let av ← propGet a k
        let bv ← propGet b k
        let m ← merge fuel av bv
        pure (setKey res k m)) (spreadFields a)
      pure (.obj fs)

/-- `inferSchema`: `data.reduce((acc, item) => merge(acc, item), {})`. -/
def inferSchema (fuel : Nat) (data : List Val) : Except String Val :=
  data.foldlM (fun acc item => merge fuel acc item) (.obj [])

/-! ## Startup load (`initialize`, index.ts lines 79-106) -/

/-- One configured table together with the record set the external
bulk-load collaborator returns for it (the paginated Scan loop is the
out-of-scope collaborator; it hands the model its concatenated result). -/
structure TableCfg where
  name : String
  description : String
  items : List Val

/-- The mutable module state touched by `initialize`: the `records` and
`schemas` maps, `descriptionToName`, plus the list of tables for which a
fetch was started (in order) and the running byte total. -/
structure LoadState where
  records : List (String × List Val)
  schemas : List (String × Val)
  descriptionToName : List (String × String)
  fetched : List String
  totalSize : Nat

/-- Assignment into a string-to-string map, JavaScript semantics. -/
def setKeyS (o : List (String × String)) (k v : String) : List (String × String) :=
  if o.any (fun p => p.1 = k) then o.map (fun p => if p.1 = k then (k, v) else p)
  else o ++ [(k, v)]

/-- A single-quote character, for reproducing the source's message format. -/
def sq : String := String.mk [Char.ofNat 39]

/-- The error message of index.ts line 98. -/
def memLimitMsg (name : String) (tot maxB : Nat) : String :=
  "Memory limit exceeded while loading table " ++ sq ++ name ++ sq ++
    ". Current: " ++ toString tot ++ ", Limit: " ++ toString maxB

/-- The loop body of `initialize`, table by table.  `estimate` stands for
`Buffer.byteLength(JSON.stringify(allItems))`, an opaque deterministic size
measure.  For each table in order: record the description mapping, fetch
(the table is appended to `fetched`), add the size estimate to the running
total, fail-fast on the budget (`maxMemoryBytes && totalSize > maxMemoryBytes`)
BEFORE storing the table, else store records and the inferred schema.  A
thrown error is the `Option String` component; the state at the throw is
kept, as the module-level maps survive the exception. -/
def initializeAux (fuel : Nat) (estimate : List Val → Nat) (maxB : Nat) :
    List TableCfg → LoadState → LoadState × Option String
  | [], st => (st, none)
  | t :: rest, st =>
    let st1 : LoadState :=
      { st with
        descriptionToName := setKeyS st.descriptionToName t.description t.name,
        fetched := st.fetched ++ [t.name] }
    let sz := estimate t.items
    let tot := st1.totalSize + sz
    if maxB ≠ 0 ∧ tot > maxB then
      ({ st1 with totalSize := tot }, some (memLimitMsg t.name tot maxB))
    else
      match inferSchema fuel (t.items.take 5) with
      | .error e =>
          ({ st1 with totalSize := tot,
                      records := st1.records ++ [(t.name, t.items)] }, some e)
      | .ok sch =>
          initializeAux fuel estimate maxB rest
            { st1 with totalSize := tot,
                       records := st1.records ++ [(t.name, t.items)],
                       schemas := st1.schemas ++ [(t.name, sch)] }

/-- `initialize` over the configured tables, from the empty module state. -/
def initializeLoad (fuel : Nat) (estimate : List Val → Nat) (maxB : Nat)
    (cfg : List TableCfg) : LoadState × Option String :=
  initializeAux fuel estimate maxB cfg ⟨[], [], [], [], 0⟩

/-- Sum of the size estimates of the first `n` configured tables. -/
def psum (estimate : List Val → Nat) (cfg : List TableCfg) (n : Nat) : Nat :=
  (((cfg.take n).map (fun t => estimate t.items)).sum)

/-! ## Array-identity model of the executor (for the no-mutation guarantee) -/

/-- A heap of arrays: the Dataset Store maps table names to references into
it, `filter` allocates a fresh array, and `sort` writes in place through a
reference. -/
structure Heap where
  arrays : List (List Val)

/-- Read an array through its reference. -/
def readArr (h : Heap) (r : Nat) : List Val := h.arrays.getD r []

/-- Allocate a fresh array, returning its reference. -/
def allocArr (h : Heap) (l : List Val) : Heap × Nat :=
  (⟨h.arrays ++ [l]⟩, h.arrays.length)

/-- Overwrite the array behind a reference (what `Array.prototype.sort`
does to `data`). -/
def writeArr (h : Heap) (r : Nat) (l : List Val) : Heap := ⟨h.arrays.set r l⟩

/-- The executor of index.ts lines 275-295 with array identity made
explicit: `filter` returns a fresh allocation, the in-place `sort` writes
through the fresh reference only, and the stored table is only ever read. -/
def execQueryHeap (h : Heap) (tblRef : Nat)
    (filterListV sortListV fieldListV queryTypeV limitCountV : Val) :
    Except String HOut × Heap :=
  let filterArg := if truthy filterListV then filterListV else .arr []
  match filterArg with
  | .arr filters =>
    (match applyFiltersE (readArr h tblRef) filters with
     | .error e => (.error e, h)
     | .ok filtered =>
       let alloc := allocArr h filtered
       let h1 := alloc.1
       let dataRef := alloc.2
       let afterSort : Except String Heap :=
         if truthy (lenProp sortListV) then
           match sortByE (fun a b => do
               let keys ← forOf sortListV
               sortCmp keys a b) (readArr h1 dataRef) with
           | .error e => .error e
           | .ok sorted => .ok (writeArr h1 dataRef sorted)
         else .ok h1
       match afterSort with
       | .error e => (.error e, h1)
       | .ok h2 =>
         let data := readArr h2 dataRef
         if strictEqStr queryTypeV "count" then
           (.ok (.text ("Found " ++ toString data.length ++ " matching records.")), h2)
         else
           match listBranch data fieldListV limitCountV with
           | .error e => (.error e, h2)
           | .ok items => (.ok (.jsonList items), h2))
  | v => (.error ("TypeError: " ++ jsTypeof v ++ ".every is not a function"), h)

/-- The full post-parse handler over the heap model: the Dataset Store maps
table names to array references. -/
def handleStructuredHeap (store : List (String × Nat)) (h : Heap)
    (structured : Val) : Except String HOut × Heap :=
  match propGet structured "result" with
  | .error e => (.error e, h)
  | .ok resultV =>
    if !(strictEqStr resultV "OK") then
      match propGet structured "errorMessage" with
      | .error e => (.error e, h)
      | .ok em => (.ok (.text ("AI error: " ++ jsToString em)), h)
    else
      match propGet structured "tableName" with
      | .error e => (.error e, h)
      | .ok tableNameV =>
        match propGet structured "filterList", propGet structured "sortList",
              propGet structured "fieldList", propGet structured "queryType",
              propGet structured "limitCount" with
        | .ok filterListV, .ok sortListV, .ok fieldListV, .ok queryTypeV, .ok limitCountV =>
          (match (store.find? (fun p => p.1 = jsToString tableNameV)).map Prod.snd with
           | none => (.ok (.text "Table not found"), h)
           | some tblRef =>
             execQueryHeap h tblRef filterListV sortListV fieldListV queryTypeV limitCountV)
        | _, _, _, _, _ => (.error "unreachable property read", h)

/-! ## Helper lemmas -/

theorem ok_bind {α β : Type} (a : α) (f : α → Except String β) :
    (Except.ok a >>= f) = f a := rfl

theorem error_bind {α β : Type} (e : String) (f : α → Except String β) :
    ((Except.error e : Except String α) >>= f) = .error e := rfl

theorem lookupF_setKey (o : List (String × Val)) (key : String) (v : Val) (k : String) :
    lookupF (setKey o key v) k = if key = k then some v else lookupF o k := by
  induction o with
  | nil => simp [setKey, lookupF]
  | cons p rest ih =>
    obtain ⟨k0, v0⟩ := p
    by_cases h : k0 = key
    · subst h
      by_cases hk : k0 = k <;> simp [setKey, lookupF, hk]
    · by_cases hk : key = k
      · subst hk
        simp [setKey, lookupF, h, ih]
      · by_cases hk0 : k0 = k
        · subst hk0
          have hne : ¬(k0 = key) := h
          simp [setKey, lookupF, hne, hk, fun hh : k0 = key => hne hh]
        · simp [setKey, lookupF, h, hk, hk0, ih]

theorem fst_mem_setKey (o : List (String × Val)) (key : String) (v : Val) (k : String) :
    k ∈ (setKey o key v).map Prod.fst ↔ k ∈ o.map Prod.fst ∨ k = key := by
  induction o with
  | nil => simp [setKey]
  | cons p rest ih =>
    obtain ⟨k0, v0⟩ := p
    by_cases h : k0 = key
    · subst h
      simp [setKey]
      tauto
    · simp [setKey, h, ih]
      tauto

theorem lookupF_mem {l : List (String × Val)} {k : String} {v : Val}
    (h : lookupF l k = some v) : (k, v) ∈ l := by
  induction l with
  | nil => simp [lookupF] at h
  | cons p rest ih =>
    obtain ⟨k0, v0⟩ := p
    by_cases hk : k0 = k
    · subst hk
      simp [lookupF] at h
      simp [h]
    · simp [lookupF, hk] at h
      simp [ih h]

theorem applyFiltersE_nil (data : List Val) : applyFiltersE data [] = .ok data := by
  induction data with
  | nil => rfl
  | cons x xs ih => simp [applyFiltersE, condsHold, ok_bind, ih]

theorem applyFiltersE_mem :
    ∀ (data filters kept : List Val), applyFiltersE data filters = .ok kept →
      ∀ x, x ∈ kept ↔ (x ∈ data ∧ condsHold x filters = .ok true) := by
  intro data
  induction data with
  | nil =>
    intro filters kept h x
    simp [applyFiltersE] at h
    subst h
    simp
  | cons y ys ih =>
    intro filters kept h x
    simp only [applyFiltersE] at h
    cases hb : condsHold y filters with
    | error e => rw [hb, error_bind] at h; exact absurd h (by simp)
    | ok b =>
      rw [hb, ok_bind] at h
      cases hr : applyFiltersE ys filters with
      | error e => rw [hr, error_bind] at h; exact absurd h (by simp)
      | ok rest =>
        rw [hr, ok_bind] at h
        have hk : (if b then y :: rest else rest) = kept := Except.ok.inj h
        subst hk
        cases b with
        | true =>
          simp only [if_pos, List.mem_cons]
          constructor
          · rintro (rfl | hx)
            · exact ⟨Or.inl rfl, hb⟩
            · obtain ⟨hmem, hc⟩ := (ih filters rest hr x).1 hx
              exact ⟨Or.inr hmem, hc⟩
          · rintro ⟨(rfl | hmem), hc⟩
            · exact Or.inl rfl
            · exact Or.inr ((ih filters rest hr x).2 ⟨hmem, hc⟩)
        | false =>
          simp only [if_neg, List.mem_cons, Bool.false_eq_true, not_false_iff]
          constructor
          · intro hx
            obtain ⟨hmem, hc⟩ := (ih filters rest hr x).1 hx
            exact ⟨Or.inr hmem, hc⟩
          · rintro ⟨(rfl | hmem), hc⟩
            · rw [hb] at hc
              exact absurd (Except.ok.inj hc) (by simp)
            · exact (ih filters rest hr x).2 ⟨hmem, hc⟩

theorem mapM_ok_mem {f : Val → Except String (List (String × Val))} :
    ∀ {data : List Val} {l : List (List (String × Val))}, data.mapM f = .ok l →
      ∀ y ∈ l, ∃ x ∈ data, f x = .ok y := by
  intro data
  induction data with
  | nil =>
    intro l h y hy
    rw [show (List.mapM f [] : Except String (List (List (String × Val)))) = .ok [] from rfl]
      at h
    cases Except.ok.inj h
    simp at hy
  | cons x xs ih =>
    intro l h y hy
    rw [List.mapM_cons] at h
    cases hx : f x with
    | error e => rw [hx, error_bind] at h; exact absurd h (by simp)
    | ok v =>
      rw [hx, ok_bind] at h
      cases hr : xs.mapM f with
      | error e => rw [hr, error_bind] at h; exact absurd h (by simp)
      | ok vs =>
        rw [hr, ok_bind] at h
        have hl : v :: vs = l := Except.ok.inj h
        subst hl
        rcases List.mem_cons.mp hy with rfl | hy
        · exact ⟨x, by simp, hx⟩
        · obtain ⟨x0, hx0, hfx0⟩ := ih hr y hy
          exact ⟨x0, by simp [hx0], hfx0⟩

/-- The value a projection produces on an object record, as a pure function. -/
def projPure (dfs : List (String × Val)) (fields : List Val) : List (String × Val) :=
  fields.foldl
    (fun out f => setKey out (jsToString f) ((lookupF dfs (jsToString f)).getD .undefined)) []

theorem projectE_go (dfs : List (String × Val)) :
    ∀ (fields : List Val) (init : List (String × Val)),
      (List.foldlM (fun out f => do
          let v ← propGet (.obj dfs) (jsToString f)
          pure (setKey out (jsToString f) v)) init fields : Except String _)
      = .ok (fields.foldl
          (fun out f => setKey out (jsToString f) ((lookupF dfs (jsToString f)).getD .undefined))
          init) := by
  intro fields
  induction fields with
  | nil => intro init; rfl
  | cons f fs ih =>
    intro init
    rw [List.foldlM_cons]
    show (Except.ok ((lookupF dfs (jsToString f)).getD .undefined) >>= fun v =>
      List.foldlM _ (setKey init (jsToString f) v) fs) = _
    rw [ok_bind, ih, List.foldl_cons]

theorem projectE_obj (dfs : List (String × Val)) (fields : List Val) :
    projectE (.obj dfs) fields = .ok (projPure dfs fields) :=
  projectE_go dfs fields []

theorem fst_mem_projPure_go (dfs : List (String × Val)) :
    ∀ (fields : List Val) (init : List (String × Val)) (k : String),
      (k ∈ (fields.foldl
          (fun out f => setKey out (jsToString f) ((lookupF dfs (jsToString f)).getD .undefined))
          init).map Prod.fst)
      ↔ k ∈ init.map Prod.fst ∨ k ∈ fields.map jsToString := by
  intro fields
  induction fields with
  | nil => intro init k; simp
  | cons f fs ih =>
    intro init k
    rw [List.foldl_cons, ih]
    rw [fst_mem_setKey]
    simp
    tauto

theorem lookupF_projPure_go (dfs : List (String × Val)) :
    ∀ (fields : List Val) (init : List (String × Val)) (k : String),
      lookupF (fields.foldl
          (fun out f => setKey out (jsToString f) ((lookupF dfs (jsToString f)).getD .undefined))
          init) k
      = if k ∈ fields.map jsToString then some ((lookupF dfs k).getD .undefined)
        else lookupF init k := by
  intro fields
  induction fields with
  | nil => intro init k; simp
  | cons f fs ih =>
    intro init k
    rw [List.foldl_cons, ih, lookupF_setKey]
    by_cases hf : k ∈ fs.map jsToString
    · simp [hf]
    · by_cases hk : jsToString f = k
      · subst hk
        simp [hf]
      · have : ¬(k = jsToString f) := fun hh => hk hh.symm
        simp [hf, hk, this]

theorem length_jsSliceZero {α : Type} (l : List α) (e : Int) :
    (jsSliceZero l e).length =
      if e < 0 then l.length - min l.length e.natAbs else min e.toNat l.length := by
  unfold jsSliceZero
  split
  · simp [List.length_take]
  · simp [List.length_take]

theorem mem_jsSliceZero {α : Type} {l : List α} {e : Int} {x : α}
    (h : x ∈ jsSliceZero l e) : x ∈ l := by
  unfold jsSliceZero at h
  split at h
  · exact (List.take_sublist _ _).subset h
  · exact (List.take_sublist _ _).subset h

/-- The projection `mapM` of the list branch succeeds on object records and
produces one projected item per surviving record. -/
theorem mapM_project_ok :
    ∀ (data : List Val) (fields : List Val),
      (∀ d ∈ data, ∃ dfs, d = Val.obj dfs) →
      ∃ projected, data.mapM (fun d => do
          let fl ← forOf (.arr fields)
          projectE d fl) = .ok projected ∧ projected.length = data.length := by
  intro data fields
  induction data with
  | nil => intro _; exact ⟨[], rfl, rfl⟩
  | cons d ds ih =>
    intro hobj
    obtain ⟨dfs, rfl⟩ := hobj d (by simp)
    obtain ⟨ps, hps, hlen⟩ := ih (fun x hx => hobj x (by simp [hx]))
    refine ⟨projPure dfs fields :: ps, ?_, by simp [hlen]⟩
    rw [List.mapM_cons]
    show (forOf (.arr fields) >>= fun fl => projectE (.obj dfs) fl) >>= _ = _
    show (Except.ok fields >>= fun fl => projectE (.obj dfs) fl) >>= _ = _
    rw [ok_bind, projectE_obj, ok_bind, hps, ok_bind]
    rfl

/-- `strictEqStr` is false whenever the value is not that exact string. -/
theorem strictEqStr_false {v : Val} {s : String} (h : v ≠ .str s) :
    strictEqStr v s = false := by
  cases v with
  | str t =>
    simp only [strictEqStr, decide_eq_false_iff_not]
    exact fun hh => h (by rw [hh])
  | undefined => rfl
  | null => rfl
  | bool b => rfl
  | num n => rfl
  | obj fs => rfl
  | arr l => rfl

/-! ## Claim theorems -/

/-- C7: filtering keeps a record iff every condition in `filterList`
evaluates true under the type-coercing comparison semantics; an empty
`filterList` keeps every record; and the records with `age` `"9"` and `10`
both survive the `greaterThan 5` filter (numeric string coerced for the
relational comparison). -/
theorem c7_filter_semantics :
    (∀ data : List Val, applyFiltersE data [] = .ok data) ∧
    (∀ data filters kept, applyFiltersE data filters = .ok kept →
      ∀ x, x ∈ kept ↔ (x ∈ data ∧ condsHold x filters = .ok true)) ∧
    (applyFiltersE [.obj [("age", .str "9")], .obj [("age", .num 10)]]
        [.obj [("field", .str "age"), ("operator", .str "greaterThan"),
               ("matchValue", .num 5)]]
      = .ok [.obj [("age", .str "9")], .obj [("age", .num 10)]]) :=
  ⟨applyFiltersE_nil, applyFiltersE_mem, rfl⟩

/-- C7 witness: both concrete records of the claim survive the filter, each
satisfying every condition. -/
theorem c7_filter_semantics_witness :
    (Val.obj [("age", .str "9")] ∈ [Val.obj [("age", .str "9")], Val.obj [("age", .num 10)]] ∧
      condsHold (.obj [("age", .str "9")])
        [.obj [("field", .str "age"), ("operator", .str "greaterThan"),
               ("matchValue", .num 5)]] = .ok true) ∧
    (Val.obj [("age", .num 10)] ∈ [Val.obj [("age", .str "9")], Val.obj [("age", .num 10)]] ∧
      condsHold (.obj [("age", .num 10)])
        [.obj [("field", .str "age"), ("operator", .str "greaterThan"),
               ("matchValue", .num 5)]] = .ok true) :=
  ⟨(c7_filter_semantics.2.1
      [.obj [("age", .str "9")], .obj [("age", .num 10)]]
      [.obj [("field", .str "age"), ("operator", .str "greaterThan"),
             ("matchValue", .num 5)]]
      [.obj [("age", .str "9")], .obj [("age", .num 10)]]
      rfl (.obj [("age", .str "9")])).1 (by simp),
   (c7_filter_semantics.2.1
      [.obj [("age", .str "9")], .obj [("age", .num 10)]]
      [.obj [("field", .str "age"), ("operator", .str "greaterThan"),
             ("matchValue", .num 5)]]
      [.obj [("age", .str "9")], .obj [("age", .num 10)]]
      rfl (.obj [("age", .num 10)])).1 (by simp)⟩

/-- C8: a filter condition whose operator is none of equals / notEquals /
greaterThan / lessThan evaluates to true on every object record — the
`switch` falls through to `default: return true`, never an error. -/
theorem c8_unrecognized_operator (ifs ffs : List (String × Val))
    (h1 : (lookupF ffs "operator").getD .undefined ≠ .str "equals")
    (h2 : (lookupF ffs "operator").getD .undefined ≠ .str "notEquals")
    (h3 : (lookupF ffs "operator").getD .undefined ≠ .str "greaterThan")
    (h4 : (lookupF ffs "operator").getD .undefined ≠ .str "lessThan") :
    evalCond (.obj ifs) (.obj ffs) = .ok true := by
  show (propGet (.obj ffs) "field" >>= fun fieldV => _) = _
  rw [show propGet (.obj ffs) "field" = .ok ((lookupF ffs "field").getD .undefined) from rfl,
    ok_bind]
  show (propGet (.obj ifs) _ >>= fun val => _) = _
  rw [show propGet (.obj ifs) (jsToString ((lookupF ffs "field").getD .undefined))
      = .ok ((lookupF ifs (jsToString ((lookupF ffs "field").getD .undefined))).getD .undefined)
      from rfl, ok_bind]
  show (propGet (.obj ffs) "operator" >>= fun opV => _) = _
  rw [show propGet (.obj ffs) "operator" = .ok ((lookupF ffs "operator").getD .undefined)
      from rfl, ok_bind]
  show (propGet (.obj ffs) "matchValue" >>= fun mV => _) = _
  rw [show propGet (.obj ffs) "matchValue" = .ok ((lookupF ffs "matchValue").getD .undefined)
      from rfl, ok_bind]
  rw [strictEqStr_false h1, strictEqStr_false h2, strictEqStr_false h3,
    strictEqStr_false h4]
  rfl

/-- C8 witness: a "contains" operator passes an arbitrary record through. -/
theorem c8_unrecognized_operator_witness :
    evalCond (.obj [("age", .num 3)])
      (.obj [("field", .str "age"), ("operator", .str "contains"),
             ("matchValue", .num 1)]) = .ok true :=
  c8_unrecognized_operator _ _ (by simp [lookupF]) (by simp [lookupF])
    (by simp [lookupF]) (by simp [lookupF])

/-- C9: a parsed query with result "OK" whose `tableName` is not a loaded
table returns the literal text "Table not found", and this holds for EVERY
executor — the query executor is never invoked. -/
theorem c9_table_not_found
    (exec : List Val → Val → Val → Val → Val → Val → Except String HOut)
    (store : List (String × List Val)) (qfs : List (String × Val))
    (hres : lookupF qfs "result" = some (.str "OK"))
    (habs : lookupStore store (jsToString ((lookupF qfs "tableName").getD .undefined)) = none) :
    handleStructuredGen exec store (.obj qfs) = .ok (.text "Table not found") := by
  show (propGet (.obj qfs) "result" >>= fun resultV => _) = _
  rw [show propGet (.obj qfs) "result" = .ok ((lookupF qfs "result").getD .undefined) from rfl,
    hres, ok_bind]
  show (if !(strictEqStr (.str "OK") "OK") then _ else _) = _
  rw [show strictEqStr (.str "OK") "OK" = true from rfl]
  show (propGet (.obj qfs) "tableName" >>= fun tableNameV => _) = _
  rw [show propGet (.obj qfs) "tableName" = .ok ((lookupF qfs "tableName").getD .undefined)
    from rfl, ok_bind]
  show (propGet (.obj qfs) "filterList" >>= fun filterListV => _) = _
  rw [show propGet (.obj qfs) "filterList" = .ok ((lookupF qfs "filterList").getD .undefined)
    from rfl, ok_bind]
  show (propGet (.obj qfs) "sortList" >>= fun sortListV => _) = _
  rw [show propGet (.obj qfs) "sortList" = .ok ((lookupF qfs "sortList").getD .undefined)
    from rfl, ok_bind]
  show (propGet (.obj qfs) "fieldList" >>= fun fieldListV => _) = _
  rw [show propGet (.obj qfs) "fieldList" = .ok ((lookupF qfs "fieldList").getD .undefined)
    from rfl, ok_bind]
  show (propGet (.obj qfs) "queryType" >>= fun queryTypeV => _) = _
  rw [show propGet (.obj qfs) "queryType" = .ok ((lookupF qfs "queryType").getD .undefined)
    from rfl, ok_bind]
  show (propGet (.obj qfs) "limitCount" >>= fun limitCountV => _) = _
  rw [show propGet (.obj qfs) "limitCount" = .ok ((lookupF qfs "limitCount").getD .undefined)
    from rfl, ok_bind]
  rw [habs]
  rfl

/-- C9 witness: a concrete unknown table short-circuits to "Table not found"
under an executor that would fail if it were ever invoked. -/
theorem c9_table_not_found_witness :
    handleStructuredGen (fun _ _ _ _ _ _ => .error "executor must not run")
      [("students", [.obj [("a", .num 1)]])]
      (.obj [("result", .str "OK"), ("tableName", .str "missing")])
      = .ok (.text "Table not found") :=
  c9_table_not_found _ _ _ rfl rfl

/-- Evaluation of `listBranch` once the projection `mapM` result is known. -/
theorem listBranch_eval (data : List Val) (fv lcV : Val)
    (projected : List (List (String × Val)))
    (h : data.mapM (fun d => do
        let fl ← forOf fv
        projectE d fl) = .ok projected) :
    listBranch data fv lcV = .ok (jsSliceZero projected
      (if truthy lcV then jsToInteger lcV else (data.length : Int))) := by
  show (data.mapM _ >>= fun projected => _) = _
  rw [h, ok_bind]
  rfl

/-- C1 (code-bug evidence): the schema merge returns the type tag of the
ACCUMULATOR side `a`, not of the next sample `b` — merging the first sample
record with the empty accumulator tags the fresh numeric field "undefined"
(the `typeof` of the missing accumulator entry), and a second sample then
tags it "string" (the `typeof` of the previous tag), never "number". -/
theorem c1_code_evaluation :
    inferSchema 5 [.obj [("age", .num 9)]] = .ok (.obj [("age", .str "undefined")]) ∧
    inferSchema 5 [.obj [("age", .num 9)], .obj [("age", .num 10)]]
      = .ok (.obj [("age", .str "string")]) ∧
    merge 1 Val.undefined (.num 9) = .ok (.str "undefined") :=
  ⟨rfl, rfl, rfl⟩

/-- C2 counterexample: a non-empty response text that is not valid JSON makes
the parse step throw a `SyntaxError` — it does not yield a StructuredQuery
with result "error". -/
theorem c2_counterexample :
    parseStep (some "hello")
      = .error "SyntaxError: Unexpected token, the text is not valid JSON" := rfl

/-- C2 amended: only a MISSING or EMPTY response text is defended (the
`|| '..'` default parses to the empty object, which downstream is treated as
a non-"OK" result and answered with the AI-error text); any other non-JSON
text throws out of the parse step. -/
theorem c2_amended :
    parseStep none = .ok (.obj []) ∧
    parseStep (some "") = .ok (.obj []) ∧
    (∀ store, handleStructured store (.obj []) = .ok (.text "AI error: undefined")) :=
  ⟨rfl, rfl, fun _ => rfl⟩

/-- C5 counterexample: with two surviving records and `limitCount = -1`
(a negative value, which the claim says returns ALL records), the list
branch returns a single item, because `-1` is truthy and
`slice(0, -1)` drops the last element. -/
theorem c5_counterexample :
    listBranch [.obj [("a", .num 1)], .obj [("a", .num 2)]] (.arr []) (.num (-1))
      = .ok [[]] ∧
    ([[]] : List (List (String × Val))).length ≠ 2 :=
  ⟨rfl, by simp⟩

/-- C5 amended: for a list-type query the output is truncated to
`limitCount` items when `limitCount` is a positive integer, and an absent or
zero `limitCount` returns all surviving records; but a NEGATIVE `limitCount`
drops that many records from the END (JavaScript `slice(0, negative)`)
rather than returning all. -/
theorem c5_amended (data fields : List Val)
    (hobj : ∀ d ∈ data, ∃ dfs, d = Val.obj dfs) :
    (∃ items, listBranch data (.arr fields) .undefined = .ok items ∧
        items.length = data.length) ∧
    (∃ items, listBranch data (.arr fields) (.num 0) = .ok items ∧
        items.length = data.length) ∧
    (∀ n : Int, 0 < n → ∃ items, listBranch data (.arr fields) (.num n) = .ok items ∧
        items.length = min n.toNat data.length) ∧
    (∀ n : Int, n < 0 → ∃ items, listBranch data (.arr fields) (.num n) = .ok items ∧
        items.length = data.length - min data.length n.natAbs) := by
  obtain ⟨projected, hproj, hlen⟩ := mapM_project_ok data fields hobj
  refine ⟨⟨_, listBranch_eval _ _ _ _ hproj, ?_⟩,
    ⟨_, listBranch_eval _ _ _ _ hproj, ?_⟩,
    fun n hn => ⟨_, listBranch_eval _ _ _ _ hproj, ?_⟩,
    fun n hn => ⟨_, listBranch_eval _ _ _ _ hproj, ?_⟩⟩
  · rw [show truthy .undefined = false from rfl]
    simp only [if_neg, Bool.false_eq_true, not_false_iff, length_jsSliceZero]
    simp [hlen]
  · rw [show truthy (.num 0) = false from rfl]
    simp only [if_neg, Bool.false_eq_true, not_false_iff, length_jsSliceZero]
    simp [hlen]
  · rw [show truthy (.num n) = decide (n ≠ 0) from rfl,
      show jsToInteger (.num n) = n from rfl]
    rw [if_pos (by simpa using (by omega : n ≠ 0)), length_jsSliceZero,
      if_neg (by omega), hlen]
  · rw [show truthy (.num n) = decide (n ≠ 0) from rfl,
      show jsToInteger (.num n) = n from rfl]
    rw [if_pos (by simpa using (by omega : n ≠ 0)), length_jsSliceZero,
      if_pos hn, hlen]

/-- C5 amended witness: a positive `limitCount` of 1 over two records gives
exactly one item. -/
theorem c5_amended_witness :
    ∃ items, listBranch [Val.obj [("a", .num 1)], Val.obj [("a", .num 2)]]
        (.arr [.str "a"]) (.num 1) = .ok items ∧
      items.length = min ((1 : Int)).toNat 2 :=
  (c5_amended [Val.obj [("a", .num 1)], Val.obj [("a", .num 2)]] [.str "a"]
    (by intro d hd
        rcases List.mem_cons.mp hd with rfl | hd
        · exact ⟨_, rfl⟩
        · rcases List.mem_cons.mp hd with rfl | hd
          · exact ⟨_, rfl⟩
          · simp at hd)).2.2.1 1 (by omega)

/-- C6: every item the list branch outputs is the projection of some
surviving record: its keys are exactly those of `fieldList`, and a listed
key that the source record lacks is present explicitly with value
`undefined` (assignment of `undefined` still creates the property). -/
theorem c6_projection (data : List Val) (fields : List String) (lcV : Val)
    (items : List (List (String × Val)))
    (hobj : ∀ d ∈ data, ∃ dfs, d = Val.obj dfs)
    (hrun : listBranch data (.arr (fields.map .str)) lcV = .ok items) :
    ∀ it ∈ items, ∃ dfs, Val.obj dfs ∈ data ∧
      (∀ k, k ∈ it.map Prod.fst ↔ k ∈ fields) ∧
      (∀ k, k ∈ fields → lookupF dfs k = none → (k, Val.undefined) ∈ it) := by
  obtain ⟨projected, hproj, hlen⟩ := mapM_project_ok data (fields.map .str) hobj
  rw [listBranch_eval _ _ _ _ hproj] at hrun
  have hitems := Except.ok.inj hrun
  intro it hit
  rw [← hitems] at hit
  have hmem : it ∈ projected := mem_jsSliceZero hit
  obtain ⟨d, hd, hfd⟩ := mapM_ok_mem hproj it hmem
  obtain ⟨dfs, rfl⟩ := hobj d hd
  rw [show (forOf (.arr (fields.map Val.str)) : Except String (List Val))
      = .ok (fields.map .str) from rfl] at hfd
  rw [ok_bind, projectE_obj] at hfd
  have hit_eq : projPure dfs (fields.map .str) = it := Except.ok.inj hfd
  subst hit_eq
  refine ⟨dfs, hd, ?_, ?_⟩
  · intro k
    show k ∈ (List.foldl _ [] (fields.map Val.str)).map Prod.fst ↔ _
    rw [fst_mem_projPure_go]
    simp [jsToString]
  · intro k hk hnone
    have hl := lookupF_projPure_go dfs (fields.map .str) [] k
    rw [if_pos (by simpa [jsToString] using hk), hnone] at hl
    exact lookupF_mem hl

/-- C6 witness: projecting the single record `{a: 1}` to fields
`["a", "b"]` yields an item whose keys are exactly `a` and `b`, with the
missing `b` explicitly `undefined`. -/
theorem c6_projection_witness :
    ∃ dfs, Val.obj dfs ∈ [Val.obj [("a", Val.num 1)]] ∧
      (∀ k, k ∈ ([("a", Val.num 1), ("b", Val.undefined)] : List (String × Val)).map Prod.fst
        ↔ k ∈ ["a", "b"]) ∧
      (∀ k, k ∈ ["a", "b"] → lookupF dfs k = none →
        (k, Val.undefined) ∈ ([("a", Val.num 1), ("b", Val.undefined)] : List (String × Val))) :=
  c6_projection [Val.obj [("a", Val.num 1)]] ["a", "b"] .undefined
    [[("a", Val.num 1), ("b", Val.undefined)]]
    (by intro d hd
        rcases List.mem_cons.mp hd with rfl | hd
        · exact ⟨_, rfl⟩
        · simp at hd)
    rfl [("a", Val.num 1), ("b", Val.undefined)] (by simp)

/-- Evaluation of the handler on an "OK" query naming a loaded table: it
runs the executor on the destructured (possibly absent, hence `undefined`)
query fields. -/
theorem handleGen_ok_table
    (exec : List Val → Val → Val → Val → Val → Val → Except String HOut)
    (store : List (String × List Val)) (qfs : List (String × Val)) (tbl : List Val)
    (hres : lookupF qfs "result" = some (.str "OK"))
    (htab : lookupStore store (jsToString ((lookupF qfs "tableName").getD .undefined))
      = some tbl) :
    handleStructuredGen exec store (.obj qfs)
      = exec tbl ((lookupF qfs "filterList").getD .undefined)
          ((lookupF qfs "sortList").getD .undefined)
          ((lookupF qfs "fieldList").getD .undefined)
          ((lookupF qfs "queryType").getD .undefined)
          ((lookupF qfs "limitCount").getD .undefined) := by
  show (propGet (.obj qfs) "result" >>= fun resultV => _) = _
  rw [show propGet (.obj qfs) "result" = .ok ((lookupF qfs "result").getD .undefined) from rfl,
    hres, ok_bind]
  show (if !(strictEqStr (.str "OK") "OK") then _ else _) = _
  rw [show strictEqStr (.str "OK") "OK" = true from rfl]
  show (propGet (.obj qfs) "tableName" >>= fun tableNameV => _) = _
  rw [show propGet (.obj qfs) "tableName" = .ok ((lookupF qfs "tableName").getD .undefined)
    from rfl, ok_bind]
  show (propGet (.obj qfs) "filterList" >>= fun filterListV => _) = _
  rw [show propGet (.obj qfs) "filterList" = .ok ((lookupF qfs "filterList").getD .undefined)
    from rfl, ok_bind]
  show (propGet (.obj qfs) "sortList" >>= fun sortListV => _) = _
  rw [show propGet (.obj qfs) "sortList" = .ok ((lookupF qfs "sortList").getD .undefined)
    from rfl, ok_bind]
  show (propGet (.obj qfs) "fieldList" >>= fun fieldListV => _) = _
  rw [show propGet (.obj qfs) "fieldList" = .ok ((lookupF qfs "fieldList").getD .undefined)
    from rfl, ok_bind]
  show (propGet (.obj qfs) "queryType" >>= fun queryTypeV => _) = _
  rw [show propGet (.obj qfs) "queryType" = .ok ((lookupF qfs "queryType").getD .undefined)
    from rfl, ok_bind]
  show (propGet (.obj qfs) "limitCount" >>= fun limitCountV => _) = _
  rw [show propGet (.obj qfs) "limitCount" = .ok ((lookupF qfs "limitCount").getD .undefined)
    from rfl, ok_bind]
  rw [htab]

/-- With both `filterList` and `sortList` absent (`undefined`), the filter
defaults to the empty condition list (keeping everything) and the sort is
skipped. -/
theorem survivors_undef (tbl : List Val) : survivors tbl .undefined .undefined = .ok tbl := by
  show applyFiltersE tbl [] >>= (fun data =>
    if truthy (lenProp Val.undefined) then
      sortByE (fun a b => do
        let keys ← forOf Val.undefined
        sortCmp keys a b) data
    else pure data) = Except.ok tbl
  rw [applyFiltersE_nil, ok_bind]
  rfl

/-- C3 counterexample: a list-type query with result "OK", a loaded table of
one record, and ABSENT `fieldList` (together with absent `filterList`,
`sortList`, `limitCount`) throws a `TypeError` out of the executor —
`for (const f of undefined)` is not tolerated. -/
theorem c3_counterexample :
    handleStructured [("t", [.obj [("a", .num 1)]])]
      (.obj [("result", .str "OK"), ("tableName", .str "t")])
      = .error "TypeError: undefined is not iterable" := rfl

/-- C3 amended: the executor tolerates absent `filterList`, `sortList` and
`limitCount`; an absent `fieldList` is tolerated only when the query is a
count query (or no record survives) — for a list-type query with a surviving
record it throws. -/
theorem c3_amended (store : List (String × List Val)) (tbl : List Val)
    (qfs : List (String × Val))
    (hres : lookupF qfs "result" = some (.str "OK"))
    (htab : lookupStore store (jsToString ((lookupF qfs "tableName").getD .undefined))
      = some tbl)
    (hobj : ∀ d ∈ tbl, ∃ dfs, d = Val.obj dfs)
    (hfl : lookupF qfs "filterList" = none)
    (hsl : lookupF qfs "sortList" = none)
    (hlc : lookupF qfs "limitCount" = none)
    (hfield : (∃ fields, lookupF qfs "fieldList" = some (.arr fields)) ∨
      lookupF qfs "queryType" = some (.str "count")) :
    ∃ out, handleStructured store (.obj qfs) = .ok out := by
  rw [show handleStructured store (.obj qfs)
      = handleStructuredGen execQuery store (.obj qfs) from rfl,
    handleGen_ok_table execQuery store qfs tbl hres htab, hfl, hsl, hlc]
  show ∃ out, (survivors tbl .undefined .undefined >>= fun data => _) = .ok out
  rw [survivors_undef, ok_bind]
  rcases hfield with ⟨fields, hfd⟩ | hqt
  · rw [hfd]
    cases hb : strictEqStr ((lookupF qfs "queryType").getD .undefined) "count" with
    | true => exact ⟨_, rfl⟩
    | false =>
      obtain ⟨projected, hproj, _⟩ := mapM_project_ok tbl fields hobj
      rw [if_neg (by simp), show ((some (Val.arr fields)).getD Val.undefined)
          = Val.arr fields from rfl,
        show ((none : Option Val).getD Val.undefined) = Val.undefined from rfl,
        listBranch_eval _ _ _ _ hproj, ok_bind]
      exact ⟨_, rfl⟩
  · rw [hqt]
    exact ⟨_, rfl⟩

/-- C3 amended witness: a query with only `result`, `tableName` and a
present `fieldList` array completes on a one-record table. -/
theorem c3_amended_witness :
    ∃ out, handleStructured [("t", [.obj [("a", .num 1)]])]
      (.obj [("result", .str "OK"), ("tableName", .str "t"),
             ("fieldList", .arr [.str "a"])]) = .ok out :=
  c3_amended [("t", [.obj [("a", .num 1)]])] [.obj [("a", .num 1)]]
    [("result", .str "OK"), ("tableName", .str "t"), ("fieldList", .arr [.str "a"])]
    rfl rfl
    (by intro d hd
        rcases List.mem_cons.mp hd with rfl | hd
        · exact ⟨_, rfl⟩
        · simp at hd)
    rfl rfl rfl (Or.inl ⟨[.str "a"], rfl⟩)

/-- Indexing into the table configuration with an inert default. -/
def cfgGet (cfg : List TableCfg) (j : Nat) : TableCfg := cfg.getD j ⟨"", "", []⟩

theorem psum_cons (estimate : List Val → Nat) (t : TableCfg) (rest : List TableCfg)
    (n : Nat) : psum estimate (t :: rest) (n + 1) = estimate t.items + psum estimate rest n := by
  simp [psum, List.take_succ_cons]

theorem initializeAux_budget (fuel : Nat) (estimate : List Val → Nat) (maxB : Nat) :
    ∀ (cfg : List TableCfg) (k : Nat) (st : LoadState),
      maxB ≠ 0 → k < cfg.length →
      (∀ j, j < k → st.totalSize + psum estimate cfg (j + 1) ≤ maxB ∧
        ∃ s, inferSchema fuel ((cfgGet cfg j).items.take 5) = .ok s) →
      st.totalSize + psum estimate cfg (k + 1) > maxB →
      (initializeAux fuel estimate maxB cfg st).2
          = some (memLimitMsg (cfgGet cfg k).name
              (st.totalSize + psum estimate cfg (k + 1)) maxB) ∧
      (initializeAux fuel estimate maxB cfg st).1.fetched
          = st.fetched ++ (cfg.take (k + 1)).map (fun t => t.name) ∧
      (initializeAux fuel estimate maxB cfg st).1.records
          = st.records ++ (cfg.take k).map (fun t => (t.name, t.items)) := by
  intro cfg
  induction cfg with
  | nil =>
    intro k st _ hk
    exact absurd hk (by simp)
  | cons t rest ih =>
    intro k st hmax hk hpre hex
    cases k with
    | zero =>
      rw [psum_cons] at hex
      have hcond : maxB ≠ 0 ∧ st.totalSize + estimate t.items > maxB := by
        constructor
        · exact hmax
        · have h0 : psum estimate rest 0 = 0 := by simp [psum]
          omega
      simp only [initializeAux]
      rw [if_pos hcond]
      refine ⟨?_, ?_, ?_⟩
      · rw [psum_cons]
        have h0 : psum estimate rest 0 = 0 := by simp [psum]
        simp [cfgGet, memLimitMsg, h0]
      · simp [List.take_succ_cons]
      · simp
    | succ j =>
      obtain ⟨hle0, s0, hs0⟩ := hpre 0 (Nat.succ_pos j)
      rw [psum_cons] at hle0
      have h0 : psum estimate rest 0 = 0 := by simp [psum]
      have hcond : ¬(maxB ≠ 0 ∧ st.totalSize + estimate t.items > maxB) := by
        intro hc
        omega
      have hs0' : inferSchema fuel (t.items.take 5) = .ok s0 := by
        simpa [cfgGet] using hs0
      simp only [initializeAux]
      rw [if_neg hcond, hs0']
      have hk' : j < rest.length := Nat.lt_of_succ_lt_succ (by simpa using hk)
      have hpre' : ∀ i, i < j →
          (st.totalSize + estimate t.items) + psum estimate rest (i + 1) ≤ maxB ∧
          ∃ s, inferSchema fuel ((cfgGet rest i).items.take 5) = .ok s := by
        intro i hi
        obtain ⟨hle, hsc⟩ := hpre (i + 1) (Nat.succ_lt_succ hi)
        rw [psum_cons] at hle
        refine ⟨by omega, ?_⟩
        simpa [cfgGet] using hsc
      have hex' : (st.totalSize + estimate t.items) + psum estimate rest (j + 1) > maxB := by
        rw [psum_cons] at hex
        omega
      obtain ⟨hmsg, hfetch, hrec⟩ := ih j
        { st with
          descriptionToName := setKeyS st.descriptionToName t.description t.name,
          fetched := st.fetched ++ [t.name],
          totalSize := st.totalSize + estimate t.items,
          records := st.records ++ [(t.name, t.items)],
          schemas := st.schemas ++ [(t.name, s0)] }
        hmax hk' hpre' hex'
      refine ⟨?_, ?_, ?_⟩
      · rw [hmsg, psum_cons]
        have htot : st.totalSize + estimate t.items + psum estimate rest (j + 1)
            = st.totalSize + (estimate t.items + psum estimate rest (j + 1)) := by omega
        simp [cfgGet, htot]
      · rw [hfetch]
        simp [List.take_succ_cons]
      · rw [hrec]
        simp [List.take_succ_cons]

/-- C4: with a configured (non-zero) memory budget, if table `k` is the
first whose loaded size pushes the cumulative total over the budget, the
load throws an error naming table `k` together with the observed total and
the budget; table `k+1` is never fetched; the tables before `k` remain
resident in `records` (and table `k` itself is not stored — the check
precedes the store). -/
theorem c4_memory_budget (fuel : Nat) (estimate : List Val → Nat) (maxB : Nat)
    (cfg : List TableCfg) (k : Nat)
    (hmax : maxB ≠ 0) (hk : k < cfg.length)
    (hpre : ∀ j, j < k → psum estimate cfg (j + 1) ≤ maxB ∧
      ∃ s, inferSchema fuel ((cfgGet cfg j).items.take 5) = .ok s)
    (hex : psum estimate cfg (k + 1) > maxB) :
    (initializeLoad fuel estimate maxB cfg).2
        = some (memLimitMsg (cfgGet cfg k).name (psum estimate cfg (k + 1)) maxB) ∧
    (initializeLoad fuel estimate maxB cfg).1.fetched
        = (cfg.take (k + 1)).map (fun t => t.name) ∧
    (initializeLoad fuel estimate maxB cfg).1.records
        = (cfg.take k).map (fun t => (t.name, t.items)) := by
  have h := initializeAux_budget fuel estimate maxB cfg k ⟨[], [], [], [], 0⟩ hmax hk
    (by intro j hj
        obtain ⟨hle, hs⟩ := hpre j hj
        exact ⟨by simpa using hle, hs⟩)
    (by simpa using hex)
  simpa [initializeLoad] using h

/-- C4 witness: three one-record tables of estimated size 10 each against a
budget of 15 — table `t2` (index 1) trips the check; `t3` is never fetched;
`t1` stays resident. -/
theorem c4_memory_budget_witness :
    (initializeLoad 5 (fun l => 10 * l.length) 15
        [⟨"t1", "d1", [.obj [("a", .num 1)]]⟩, ⟨"t2", "d2", [.obj [("b", .num 2)]]⟩,
         ⟨"t3", "d3", [.obj [("c", .num 3)]]⟩]).2
      = some (memLimitMsg "t2" 20 15) ∧
    (initializeLoad 5 (fun l => 10 * l.length) 15
        [⟨"t1", "d1", [.obj [("a", .num 1)]]⟩, ⟨"t2", "d2", [.obj [("b", .num 2)]]⟩,
         ⟨"t3", "d3", [.obj [("c", .num 3)]]⟩]).1.fetched = ["t1", "t2"] ∧
    (initializeLoad 5 (fun l => 10 * l.length) 15
        [⟨"t1", "d1", [.obj [("a", .num 1)]]⟩, ⟨"t2", "d2", [.obj [("b", .num 2)]]⟩,
         ⟨"t3", "d3", [.obj [("c", .num 3)]]⟩]).1.records
      = [("t1", [.obj [("a", .num 1)]])] := by
  have h := c4_memory_budget 5 (fun l => 10 * l.length) 15
    [⟨"t1", "d1", [.obj [("a", .num 1)]]⟩, ⟨"t2", "d2", [.obj [("b", .num 2)]]⟩,
     ⟨"t3", "d3", [.obj [("c", .num 3)]]⟩] 1
    (by decide) (by decide)
    (by intro j hj
        have hj0 : j = 0 := by omega
        subst hj0
        exact ⟨by decide, ⟨_, rfl⟩⟩)
    (by decide)
  refine ⟨?_, ?_, ?_⟩
  · rw [h.1]
    rfl
  · rw [h.2.1]
    rfl
  · rw [h.2.2]
    rfl

theorem getD_append_lt {α : Type} (l l2 : List α) (r : Nat) (d : α)
    (h : r < l.length) : (l ++ l2).getD r d = l.getD r d := by
  induction l generalizing r with
  | nil => simp at h
  | cons x xs ih =>
    cases r with
    | zero => rfl
    | succ r => exact ih r (by simpa using h)

theorem getD_set_ne {α : Type} (l : List α) (i j : Nat) (x : α) (d : α)
    (h : i ≠ j) : (l.set i x).getD j d = l.getD j d := by
  induction l generalizing i j with
  | nil => rfl
  | cons y ys ih =>
    cases i with
    | zero =>
      cases j with
      | zero => exact absurd rfl h
      | succ j => rfl
    | succ i =>
      cases j with
      | zero => rfl
      | succ j => exact ih i j (fun hh => h (by rw [hh]))

/-- The executor touches only the array it freshly allocates: every array
reference that existed before the call reads back unchanged. -/
theorem execQueryHeap_frame (h : Heap) (tblRef : Nat)
    (fl sl fdl qt lc : Val) (r : Nat) (hr : r < h.arrays.length) :
    readArr (execQueryHeap h tblRef fl sl fdl qt lc).2 r = readArr h r := by
  have halloc : ∀ x : List Val, readArr ⟨h.arrays ++ [x]⟩ r = readArr h r :=
    fun x => getD_append_lt h.arrays [x] r [] hr
  have hwrite : ∀ (x y : List Val),
      readArr (writeArr ⟨h.arrays ++ [x]⟩ h.arrays.length y) r = readArr h r := by
    intro x y
    show (List.set (h.arrays ++ [x]) h.arrays.length y).getD r [] = _
    rw [getD_set_ne _ _ _ _ _ (by omega)]
    exact halloc x
  unfold execQueryHeap
  generalize (if truthy fl then fl else Val.arr []) = fa
  cases fa with
  | undefined => rfl
  | null => rfl
  | bool b => rfl
  | num n => rfl
  | str s => rfl
  | obj fs => rfl
  | arr filters =>
    cases happ : applyFiltersE (readArr h tblRef) filters with
    | error e => simp only [happ]
    | ok filtered =>
      simp only [happ, allocArr]
      cases hsort : truthy (lenProp sl) with
      | false =>
        simp only [hsort, Bool.false_eq_true, if_false]
        cases hq : strictEqStr qt "count" with
        | true =>
          simp only [hq, if_true]
          exact halloc _
        | false =>
          simp only [hq, Bool.false_eq_true, if_false]
          cases hlb : listBranch (readArr ⟨h.arrays ++ [filtered]⟩ h.arrays.length) fdl lc with
          | error e => simp only [hlb]; exact halloc _
          | ok items => simp only [hlb]; exact halloc _
      | true =>
        simp only [hsort, if_true]
        cases hs : sortByE (fun a b => do
            let keys ← forOf sl
            sortCmp keys a b) (readArr ⟨h.arrays ++ [filtered]⟩ h.arrays.length) with
        | error e => simp only [hs]; exact halloc _
        | ok sorted =>
          simp only [hs]
          cases hq : strictEqStr qt "count" with
          | true =>
            simp only [hq, if_true]
            exact hwrite _ _
          | false =>
            simp only [hq, Bool.false_eq_true, if_false]
            cases hlb : listBranch
                (readArr (writeArr ⟨h.arrays ++ [filtered]⟩ h.arrays.length sorted)
                  h.arrays.length) fdl lc with
            | error e => simp only [hlb]; exact hwrite _ _
            | ok items => simp only [hlb]; exact hwrite _ _

/-- C10: executing any query through the handler never mutates any array
that was resident in the Dataset Store beforehand — in particular the
queried table's stored record sequence reads back element-for-element
identical (the filter result is a fresh allocation and the in-place sort
writes only through that fresh reference). -/
theorem c10_no_mutation (store : List (String × Nat)) (h : Heap) (q : Val)
    (r : Nat) (hr : r < h.arrays.length) :
    readArr (handleStructuredHeap store h q).2 r = readArr h r := by
  unfold handleStructuredHeap
  split
  · rfl
  · split
    · split
      · rfl
      · rfl
    · split
      · rfl
      · split
        · split
          · rfl
          · exact execQueryHeap_frame _ _ _ _ _ _ _ r hr
        · rfl

/-- C10 witness: a sorting query over a one-table store leaves the stored
array intact. -/
theorem c10_no_mutation_witness :
    readArr (handleStructuredHeap [("t", 0)]
        ⟨[[.obj [("g", .num 10)], .obj [("g", .num 9)]]]⟩
        (.obj [("result", .str "OK"), ("tableName", .str "t"),
               ("sortList", .arr [.str "g"]), ("queryType", .str "count")])).2 0
      = readArr ⟨[[.obj [("g", .num 10)], .obj [("g", .num 9)]]]⟩ 0 :=
  c10_no_mutation [("t", 0)] ⟨[[.obj [("g", .num 10)], .obj [("g", .num 9)]]]⟩
    (.obj [("result", .str "OK"), ("tableName", .str "t"),
           ("sortList", .arr [.str "g"]), ("queryType", .str "count")])
    0 (by simp)

end MCPDynamo
